import Mathlib

/-!
Shallow embedding of the MinerU-Langchain-Extractor core: the extraction
schema types with their confidence calculation (src/models), the heuristic
fallback extraction paths of the LangChain extractor
(src/extractors/langchain_extractor.py), the example regex plugin
(src/plugins/example_custom_extractor.py), the extractor registry
(src/extractors/registry.py) and the environment-driven LLM configuration.

Python strings are modelled as lists of characters; machine floats of the
source are modelled as rationals (all the arithmetic performed by the code
is exact decimal arithmetic, so this is faithful); Python dicts keyed by
strings are modelled as insertion-ordered association lists with
replace-in-place update. Exotic Unicode whitespace (beyond the ASCII
whitespace characters and the Unicode line-break characters that Python's
splitlines recognises) is not modelled.
-/

/-- A Python string, modelled as its list of characters. -/
abbrev PyStr := List Char

/-- Characters treated as whitespace by the embedding: the ASCII whitespace
characters recognised by Python's str.strip and the regex class \s, together
with the line-break characters of str.splitlines. -/
def isPySpace (c : Char) : Bool :=
  c == ' ' || c == '\t' || c == '\n' || c == '\r' || c == '\x0b' || c == '\x0c' ||
  c == '\x1c' || c == '\x1d' || c == '\x1e' || c == '\x85' || c == '\u2028' || c == '\u2029'

/-- Line-break characters of Python's str.splitlines. -/
def isLineBreakChar (c : Char) : Bool :=
  c == '\n' || c == '\r' || c == '\x0b' || c == '\x0c' ||
  c == '\x1c' || c == '\x1d' || c == '\x1e' || c == '\x85' || c == '\u2028' || c == '\u2029'

/-- Python str.strip(): remove leading and trailing whitespace. -/
def pyStrip (l : PyStr) : PyStr :=
  ((l.dropWhile isPySpace).reverse.dropWhile isPySpace).reverse

/-- Python str.lower() (ASCII case folding; the keyword lists the source
compares against are ASCII or Chinese, so this is faithful there). -/
def pyLower (l : PyStr) : PyStr := l.map Char.toLower

/-- Whether the first argument occurs at the start of the second. -/
def leadsWith : PyStr → PyStr → Bool
  | [], _ => true
  | _ :: _, [] => false
  | a :: as, b :: bs => a == b && leadsWith as bs

/-- Python substring containment: needle in hay. -/
def containsSub (n : PyStr) : PyStr → Bool
  | [] => n.isEmpty
  | c :: rest => leadsWith n (c :: rest) || containsSub n rest

/-- Python str.splitlines: accumulate the current line (reversed) and split
at every line-break character, treating a CRLF pair as a single break. -/
def splitlinesAux : List Char → List Char → List (List Char)
  | [], acc => if acc.isEmpty then [] else [acc.reverse]
  | c :: rest, acc =>
    if isLineBreakChar c then
      match rest with
      | d :: rest2 =>
        if c == '\r' && d == '\n' then acc.reverse :: splitlinesAux rest2 []
        else acc.reverse :: splitlinesAux (d :: rest2) []
      | [] => [acc.reverse]
    else splitlinesAux rest (c :: acc)

/-- Python text.splitlines(). -/
def pySplitlines (l : PyStr) : List PyStr := splitlinesAux l []

/-- Python text.split with separator a single newline character. -/
def pySplitNl : List Char → List (List Char)
  | [] => [[]]
  | '\n' :: rest => [] :: pySplitNl rest
  | c :: rest =>
    match pySplitNl rest with
    | [] => [[c]]
    | l :: ls => (c :: l) :: ls

/-- The line list the LangChain extractor's heuristics receive:
lines = [ln.strip() for ln in text.splitlines() if ln.strip()]. -/
def pyLines (text : PyStr) : List PyStr :=
  ((pySplitlines text).map pyStrip).filter (fun l => !l.isEmpty)

/-- The line list the example regex extractor builds:
lines = [line.strip() for line in text.split with newline if line.strip()]. -/
def pyLinesNl (text : PyStr) : List PyStr :=
  ((pySplitNl text).map pyStrip).filter (fun l => !l.isEmpty)

/-- Python truthiness of an optional string: None and the empty string are
falsy, every other string (whitespace included) is truthy. -/
def pyTruthy : Option PyStr → Bool
  | none => false
  | some s => !s.isEmpty

/-- A field value of a pydantic extraction model, as seen by the generic
confidence computation: None, a string, a float, or a list of strings. -/
inductive FieldVal where
  | none
  | str (s : PyStr)
  | float (q : Rat)
  | strList (ws : List PyStr)
deriving DecidableEq

/-- Embed an optional string field. -/
def FieldVal.ofOptStr : Option PyStr → FieldVal
  | Option.none => .none
  | Option.some s => .str s

/-- Embed an optional list-of-strings field. -/
def FieldVal.ofOptList : Option (List PyStr) → FieldVal
  | Option.none => .none
  | Option.some ws => .strList ws

/-- The test value is not None and str(value).strip() is truthy, from
BaseExtractionModel.calculate_confidence: a None field is unfilled, a string
field is filled iff it is non-blank after trimming, and a float or list
field is always filled because its str() rendering is never blank. -/
def FieldVal.isFilled : FieldVal → Bool
  | .none => false
  | .str s => !(pyStrip s).isEmpty
  | .float _ => true
  | .strList _ => true

/-- The spec's notion of a field being null or a blank/whitespace-only
string. A float or string-list field is never null or blank. -/
def FieldVal.isBlankOrNull : FieldVal → Bool
  | .none => true
  | .str s => (pyStrip s).isEmpty
  | .float _ => false
  | .strList _ => false

/-- BaseExtractionModel.calculate_confidence: the number of filled
non-confidence fields divided by the total number of non-confidence fields,
or 0.0 when there are no such fields. The argument is the list of the
instance's field values other than confidence. -/
def baseCalculateConfidence (fs : List FieldVal) : Rat :=
  let filled_fields := (fs.filter FieldVal.isFilled).length
  let total_fields := fs.length
  if total_fields > 0 then (filled_fields : Rat) / (total_fields : Rat) else 0

/-- Person model: full_name, job_title, company_name, confidence. -/
structure Person where
  full_name : Option PyStr := none
  job_title : Option PyStr := none
  company_name : Option PyStr := none
  confidence : Rat := 0
deriving DecidableEq

/-- The non-confidence field values of a Person, in declaration order. -/
def Person.fieldsList (p : Person) : List FieldVal :=
  [.ofOptStr p.full_name, .ofOptStr p.job_title, .ofOptStr p.company_name]

/-- Person inherits the default confidence computation. -/
def Person.calculate_confidence (p : Person) : Rat :=
  baseCalculateConfidence p.fieldsList

/-- BaseExtractionModel.update_confidence for Person. -/
def Person.update_confidence (p : Person) : Person :=
  { p with confidence := p.calculate_confidence }

/-- Sentiment model: sentiment, confidence_score, keywords, confidence. -/
structure Sentiment where
  sentiment : Option PyStr := none
  confidence_score : Rat := 0
  keywords : Option (List PyStr) := none
  confidence : Rat := 0
deriving DecidableEq

/-- The non-confidence field values of a Sentiment, in declaration order. -/
def Sentiment.fieldsList (s : Sentiment) : List FieldVal :=
  [.ofOptStr s.sentiment, .float s.confidence_score, .ofOptList s.keywords]

/-- Sentiment.calculate_confidence: the average of the inherited
field-completeness score and the self-reported confidence_score. -/
def Sentiment.calculate_confidence (s : Sentiment) : Rat :=
  (baseCalculateConfidence s.fieldsList + s.confidence_score) / 2

/-- BaseExtractionModel.update_confidence for Sentiment. -/
def Sentiment.update_confidence (s : Sentiment) : Sentiment :=
  { s with confidence := s.calculate_confidence }

/-- CompanyInfo model: company_name, industry, address, phone, email,
confidence. -/
structure CompanyInfo where
  company_name : Option PyStr := none
  industry : Option PyStr := none
  address : Option PyStr := none
  phone : Option PyStr := none
  email : Option PyStr := none
  confidence : Rat := 0
deriving DecidableEq

/-- The non-confidence field values of a CompanyInfo. -/
def CompanyInfo.fieldsList (c : CompanyInfo) : List FieldVal :=
  [.ofOptStr c.company_name, .ofOptStr c.industry, .ofOptStr c.address,
   .ofOptStr c.phone, .ofOptStr c.email]

/-- CompanyInfo inherits the default confidence computation. -/
def CompanyInfo.calculate_confidence (c : CompanyInfo) : Rat :=
  baseCalculateConfidence c.fieldsList

/-- BaseExtractionModel.update_confidence for CompanyInfo. -/
def CompanyInfo.update_confidence (c : CompanyInfo) : CompanyInfo :=
  { c with confidence := c.calculate_confidence }

/-- ProductInfo model: product_name, price, description, brand, category,
confidence. -/
structure ProductInfo where
  product_name : Option PyStr := none
  price : Option PyStr := none
  description : Option PyStr := none
  brand : Option PyStr := none
  category : Option PyStr := none
  confidence : Rat := 0
deriving DecidableEq

/-- The non-confidence field values of a ProductInfo. -/
def ProductInfo.fieldsList (p : ProductInfo) : List FieldVal :=
  [.ofOptStr p.product_name, .ofOptStr p.price, .ofOptStr p.description,
   .ofOptStr p.brand, .ofOptStr p.category]

/-- ProductInfo inherits the default confidence computation. -/
def ProductInfo.calculate_confidence (p : ProductInfo) : Rat :=
  baseCalculateConfidence p.fieldsList

/-- BaseExtractionModel.update_confidence for ProductInfo. -/
def ProductInfo.update_confidence (p : ProductInfo) : ProductInfo :=
  { p with confidence := p.calculate_confidence }

/-- ContactInfo model: name, phone, email, address, wechat, confidence. -/
structure ContactInfo where
  name : Option PyStr := none
  phone : Option PyStr := none
  email : Option PyStr := none
  address : Option PyStr := none
  wechat : Option PyStr := none
  confidence : Rat := 0
deriving DecidableEq

/-- The non-confidence field values of a ContactInfo. -/
def ContactInfo.fieldsList (c : ContactInfo) : List FieldVal :=
  [.ofOptStr c.name, .ofOptStr c.phone, .ofOptStr c.email,
   .ofOptStr c.address, .ofOptStr c.wechat]

/-- ContactInfo inherits the default confidence computation. -/
def ContactInfo.calculate_confidence (c : ContactInfo) : Rat :=
  baseCalculateConfidence c.fieldsList

/-- BaseExtractionModel.update_confidence for ContactInfo. -/
def ContactInfo.update_confidence (c : ContactInfo) : ContactInfo :=
  { c with confidence := c.calculate_confidence }

/-- MenuInfo plugin model: dish_name, price, description, category,
spicy_level, confidence. -/
structure MenuInfo where
  dish_name : Option PyStr := none
  price : Option PyStr := none
  description : Option PyStr := none
  category : Option PyStr := none
  spicy_level : Option PyStr := none
  confidence : Rat := 0
deriving DecidableEq

/-- The non-confidence field values of a MenuInfo. -/
def MenuInfo.fieldsList (m : MenuInfo) : List FieldVal :=
  [.ofOptStr m.dish_name, .ofOptStr m.price, .ofOptStr m.description,
   .ofOptStr m.category, .ofOptStr m.spicy_level]

/-- MenuInfo.calculate_confidence: the inherited completeness score, with a
0.2 bonus capped at 1.0 whenever dish_name and price are both Python-truthy
(the bonus test is truthiness, not blankness). -/
def MenuInfo.calculate_confidence (m : MenuInfo) : Rat :=
  let confidence := baseCalculateConfidence m.fieldsList
  if pyTruthy m.dish_name && pyTruthy m.price then min 1 (confidence + 0.2)
  else confidence

/-- BaseExtractionModel.update_confidence for MenuInfo. -/
def MenuInfo.update_confidence (m : MenuInfo) : MenuInfo :=
  { m with confidence := m.calculate_confidence }

/-- The extraction-type identifier of Person. -/
def ptPerson : PyStr := "person".toList

/-- The extraction-type identifier of Sentiment. -/
def ptSentiment : PyStr := "sentiment".toList

/-- The extraction-type identifier of CompanyInfo. -/
def ptCompany : PyStr := "company_info".toList

/-- The extraction-type identifier of ProductInfo. -/
def ptProduct : PyStr := "product_info".toList

/-- The extraction-type identifier of ContactInfo. -/
def ptContact : PyStr := "contact_info".toList

/-- The extraction-type identifier of MenuInfo. -/
def ptMenu : PyStr := "menu_info".toList

/-- The company/legal suffix substrings tested (lowercased) by
LangChainExtractor._heuristic_company_extraction. -/
def companySuffixes : List PyStr :=
  ["inc", "corp", "llc", "co", "ltd", "公司", "有限"].map String.toList

/-- The telephone keywords tested (lowercased) by the company and contact
heuristics. -/
def telKeywords : List PyStr := ["tel", "电话", "phone"].map String.toList

/-- The currency markers tested by
LangChainExtractor._heuristic_product_extraction. -/
def priceSymbols : List PyStr := ["¥", "$", "￥", "元", "USD", "CNY"].map String.toList

/-- Whether a line's lowercase form contains one of the company/legal
suffix substrings. -/
def companySuffixHit (line : PyStr) : Bool :=
  companySuffixes.any (fun suffix => containsSub suffix (pyLower line))

/-- Whether a line's lowercase form contains one of the telephone
keywords. -/
def telKeywordHit (line : PyStr) : Bool :=
  telKeywords.any (fun keyword => containsSub keyword (pyLower line))

/-- Whether a line contains one of the currency markers (no lowercasing in
the source here). -/
def priceSymbolHit (line : PyStr) : Bool :=
  priceSymbols.any (fun symbol => containsSub symbol line)

/-- Whether a line contains the at-sign. -/
def atHit (line : PyStr) : Bool := containsSub ['@'] line

/-- Character class of the phone regex in the source, a pattern matching one
or more of: digits, hyphen, parentheses, plus sign, whitespace. -/
def phoneCharClass (c : Char) : Bool :=
  c.isDigit || c == '-' || c == '(' || c == ')' || c == '+' || isPySpace c

/-- re.search for the phone character-class pattern: the first maximal run
of phone-class characters, or None when the line has none. -/
def findPhone : List Char → Option (List Char)
  | [] => none
  | c :: rest =>
    if phoneCharClass c then some (c :: rest.takeWhile phoneCharClass)
    else findPhone rest

/-- LangChainExtractor._heuristic_person_extraction: first three non-blank
lines become name, job title and company, each with leading hash marks and
surrounding whitespace removed; the empty line list yields no result. -/
def heuristic_person_extraction (lines : List PyStr) : List Person :=
  if lines.isEmpty then []
  else
    [{ full_name := (lines[0]?).map (fun l => pyStrip (l.dropWhile (fun c => c == '#'))),
       job_title := (lines[1]?).map (fun l => pyStrip (l.dropWhile (fun c => c == '#'))),
       company_name := (lines[2]?).map (fun l => pyStrip (l.dropWhile (fun c => c == '#'))) }]

/-- The positive keyword list of
LangChainExtractor._heuristic_sentiment_extraction. -/
def positive_words : List PyStr :=
  ["好", "棒", "优秀", "满意", "喜欢", "推荐", "excellent", "good", "great", "awesome"].map
    String.toList

/-- The negative keyword list of
LangChainExtractor._heuristic_sentiment_extraction. -/
def negative_words : List PyStr :=
  ["差", "坏", "糟糕", "失望", "不满", "讨厌", "bad", "terrible", "awful", "poor"].map
    String.toList

/-- LangChainExtractor._heuristic_sentiment_extraction: counts positive and
negative keyword hits in the lowercased text, decides the sentiment by
strict majority, reports min(0.8, count * 0.2) as the self-reported score
for a decided sentiment and 0.5 otherwise, and collects the first five
matched keywords, positive list first. -/
def heuristic_sentiment_extraction (text : PyStr) : List Sentiment :=
  let text_lower := pyLower text
  let positive_count := (positive_words.filter (fun word => containsSub word text_lower)).length
  let negative_count := (negative_words.filter (fun word => containsSub word text_lower)).length
  let decided : PyStr × Rat :=
    if positive_count > negative_count then
      ("positive".toList, min (0.8 : Rat) ((positive_count : Rat) * 0.2))
    else if negative_count > positive_count then
      ("negative".toList, min (0.8 : Rat) ((negative_count : Rat) * 0.2))
    else ("neutral".toList, (0.5 : Rat))
  let keywords :=
    ((positive_words ++ negative_words).filter (fun word => containsSub word text_lower)).take 5
  [{ sentiment := some decided.1, confidence_score := decided.2, keywords := some keywords }]

/-- One loop iteration of
LangChainExtractor._heuristic_company_extraction: a line containing a
company/legal suffix is assigned (unconditionally) to company_name;
otherwise a line containing a telephone keyword has its first phone-class
run assigned (unconditionally, stripped) to phone; otherwise a line
containing an at-sign is assigned (unconditionally) to email. -/
def companyStep (company_info : CompanyInfo) (line : PyStr) : CompanyInfo :=
  if companySuffixHit line then { company_info with company_name := some line }
  else if telKeywordHit line then
    match findPhone line with
    | some phone_match => { company_info with phone := some (pyStrip phone_match) }
    | none => company_info
  else if atHit line then { company_info with email := some line }
  else company_info

/-- LangChainExtractor._heuristic_company_extraction: fold the line rules
over a fresh CompanyInfo and return it as a singleton list. -/
def heuristic_company_extraction (lines : List PyStr) : List CompanyInfo :=
  [lines.foldl companyStep {}]

/-- One loop iteration of
LangChainExtractor._heuristic_product_extraction: a line containing a
currency marker is assigned (unconditionally) to price; otherwise a line of
length above two becomes product_name when product_name is still falsy. -/
def productStep (product_info : ProductInfo) (line : PyStr) : ProductInfo :=
  if priceSymbolHit line then { product_info with price := some line }
  else if !pyTruthy product_info.product_name ∧ line.length > 2 then
    { product_info with product_name := some line }
  else product_info

/-- LangChainExtractor._heuristic_product_extraction: fold the line rules
over a fresh ProductInfo and return it as a singleton list. -/
def heuristic_product_extraction (lines : List PyStr) : List ProductInfo :=
  [lines.foldl productStep {}]

/-- One loop iteration of
LangChainExtractor._heuristic_contact_extraction: a line containing an
at-sign is assigned (unconditionally) to email; otherwise a line containing
a telephone keyword has its first phone-class run assigned (unconditionally,
stripped) to phone; otherwise a line of length above one becomes name when
name is still falsy. -/
def contactStep (contact_info : ContactInfo) (line : PyStr) : ContactInfo :=
  if atHit line then { contact_info with email := some line }
  else if telKeywordHit line then
    match findPhone line with
    | some phone_match => { contact_info with phone := some (pyStrip phone_match) }
    | none => contact_info
  else if !pyTruthy contact_info.name ∧ line.length > 1 then
    { contact_info with name := some line }
  else contact_info

/-- LangChainExtractor._heuristic_contact_extraction: fold the line rules
over a fresh ContactInfo and return it as a singleton list. -/
def heuristic_contact_extraction (lines : List PyStr) : List ContactInfo :=
  [lines.foldl contactStep {}]

/-- A result instance produced by a strategy, tagged with its schema
type. -/
inductive Extracted where
  | person (p : Person)
  | sentimentRes (s : Sentiment)
  | company (c : CompanyInfo)
  | product (p : ProductInfo)
  | contact (c : ContactInfo)
  | menu (m : MenuInfo)
deriving DecidableEq

/-- update_confidence dispatched over the schema types. -/
def Extracted.update_confidence : Extracted → Extracted
  | .person p => .person p.update_confidence
  | .sentimentRes s => .sentimentRes s.update_confidence
  | .company c => .company c.update_confidence
  | .product p => .product p.update_confidence
  | .contact c => .contact c.update_confidence
  | .menu m => .menu m.update_confidence

/-- The confidence attribute of a result instance. -/
def Extracted.confidenceVal : Extracted → Rat
  | .person p => p.confidence
  | .sentimentRes s => s.confidence
  | .company c => c.confidence
  | .product p => p.confidence
  | .contact c => c.confidence
  | .menu m => m.confidence

/-- calculate_confidence dispatched over the schema types. -/
def Extracted.calcVal : Extracted → Rat
  | .person p => p.calculate_confidence
  | .sentimentRes s => s.calculate_confidence
  | .company c => c.calculate_confidence
  | .product p => p.calculate_confidence
  | .contact c => c.calculate_confidence
  | .menu m => m.calculate_confidence

/-- LangChainExtractor._heuristic_extraction: split the text into stripped
non-blank lines and dispatch on the extraction-type identifier; unknown
identifiers yield the empty list. -/
def heuristic_extraction (text : PyStr) (extraction_type : PyStr) : List Extracted :=
  let lines := pyLines text
  if extraction_type = ptPerson then (heuristic_person_extraction lines).map Extracted.person
  else if extraction_type = ptSentiment then
    (heuristic_sentiment_extraction text).map Extracted.sentimentRes
  else if extraction_type = ptCompany then
    (heuristic_company_extraction lines).map Extracted.company
  else if extraction_type = ptProduct then
    (heuristic_product_extraction lines).map Extracted.product
  else if extraction_type = ptContact then
    (heuristic_contact_extraction lines).map Extracted.contact
  else []

/-- LangChainExtractor.extract in the heuristic mode (self.llm is None):
blank or empty text returns the empty list, otherwise the heuristic items
are produced and each gets update_confidence applied before returning. -/
def langchain_extract (text : PyStr) (extraction_type : PyStr) : List Extracted :=
  if pyStrip text = [] then []
  else (heuristic_extraction text extraction_type).map Extracted.update_confidence

/-- LangChainExtractor.supports_model: membership of the extraction-type
identifier among the keys of the system-prompt table. -/
def langchain_supports_model (extraction_type : PyStr) : Bool :=
  [ptPerson, ptSentiment, ptCompany, ptProduct, ptContact].contains extraction_type

/-- First alternative of the plugin's price regex: a currency sign, then
optional whitespace, then digits, then optionally a dot and exactly two
digits. Greedy matching with the single backtrack on the optional group is
exact here because the adjacent character classes are disjoint. -/
def matchPriceAlt1 : List Char → Option (List Char)
  | [] => none
  | c :: rest =>
    if c == '¥' || c == '$' || c == '￥' then
      let sps := rest.takeWhile isPySpace
      let afterSpaces := rest.dropWhile isPySpace
      let ds := afterSpaces.takeWhile Char.isDigit
      if ds.isEmpty then none
      else
        match afterSpaces.dropWhile Char.isDigit with
        | '.' :: d1 :: d2 :: _ =>
          if d1.isDigit && d2.isDigit then some (c :: sps ++ ds ++ ['.', d1, d2])
          else some (c :: sps ++ ds)
        | _ => some (c :: sps ++ ds)
    else none

/-- Tail of the second price-regex alternative: optional whitespace then a
currency character, appended to the already-matched front. -/
def priceAlt2Tail (front : List Char) (rest : List Char) : Option (List Char) :=
  let sps := rest.takeWhile isPySpace
  match rest.dropWhile isPySpace with
  | c :: _ => if c == '元' || c == '块' then some (front ++ sps ++ [c]) else none
  | [] => none

/-- Second alternative of the plugin's price regex: digits, optionally a dot
and exactly two digits, optional whitespace, then a currency character. The
optional group backtracks when the tail fails after it. -/
def matchPriceAlt2 (l : List Char) : Option (List Char) :=
  let ds := l.takeWhile Char.isDigit
  if ds.isEmpty then none
  else
    match l.dropWhile Char.isDigit with
    | '.' :: d1 :: d2 :: r3 =>
      if d1.isDigit && d2.isDigit then
        match priceAlt2Tail (ds ++ ['.', d1, d2]) r3 with
        | some m => some m
        | none => priceAlt2Tail ds (l.dropWhile Char.isDigit)
      else priceAlt2Tail ds (l.dropWhile Char.isDigit)
    | _ => priceAlt2Tail ds (l.dropWhile Char.isDigit)

/-- Match of the plugin's price regex at the start of the input, first
alternative preferred. -/
def matchPriceAt (l : List Char) : Option (List Char) :=
  match matchPriceAlt1 l with
  | some m => some m
  | none => matchPriceAlt2 l

/-- re.search for the plugin's price regex: leftmost match wins. -/
def reSearchPrice : List Char → Option (List Char)
  | [] => none
  | c :: rest =>
    match matchPriceAt (c :: rest) with
    | some m => some m
    | none => reSearchPrice rest

/-- Match of the plugin's spiciness regex at the start of the input: an
optional negation character then the spicy character, or one of the fixed
two- and three-character degree words. -/
def matchSpicyAt : List Char → Option (List Char)
  | '不' :: '辣' :: _ => some ['不', '辣']
  | '无' :: '辣' :: _ => some ['无', '辣']
  | '辣' :: _ => some ['辣']
  | '微' :: '辣' :: _ => some ['微', '辣']
  | '中' :: '辣' :: _ => some ['中', '辣']
  | '特' :: '辣' :: _ => some ['特', '辣']
  | '变' :: '态' :: '辣' :: _ => some ['变', '态', '辣']
  | _ => none

/-- re.search for the plugin's spiciness regex: leftmost match wins. -/
def reSearchSpicy : List Char → Option (List Char)
  | [] => none
  | c :: rest =>
    match matchSpicyAt (c :: rest) with
    | some m => some m
    | none => reSearchSpicy rest

/-- The local variables of SimpleRegexExtractor._extract_menu_info during
its line loop. -/
structure MenuState where
  dish_name : Option PyStr := none
  price : Option PyStr := none
  description : Option PyStr := none
  spicy_level : Option PyStr := none
deriving DecidableEq

/-- One loop iteration of SimpleRegexExtractor._extract_menu_info: a price
match fills price only when price is still falsy; a spiciness match always
overwrites spicy_level; then a line without a price match and of length
above two becomes dish_name when dish_name is falsy, or else a line of
length above five becomes description when dish_name is truthy and
description falsy. -/
def menuStep (st : MenuState) (line : PyStr) : MenuState :=
  let price_match := reSearchPrice line
  let st1 :=
    match price_match with
    | some m => if !pyTruthy st.price then { st with price := some m } else st
    | none => st
  let st2 :=
    match reSearchSpicy line with
    | some m => { st1 with spicy_level := some m }
    | none => st1
  if price_match = none ∧ !pyTruthy st2.dish_name ∧ line.length > 2 then
    { st2 with dish_name := some line }
  else if pyTruthy st2.dish_name ∧ !pyTruthy st2.description ∧ line.length > 5 then
    { st2 with description := some line }
  else st2

/-- SimpleRegexExtractor._extract_menu_info: split the text on newlines into
stripped non-blank lines, run the loop, and return the single MenuInfo built
from the loop state (category is never set and update_confidence is never
called, so confidence keeps its 0.0 default). -/
def extract_menu_info (text : PyStr) : List MenuInfo :=
  let lines := pyLinesNl text
  let st := lines.foldl menuStep {}
  [{ dish_name := st.dish_name, price := st.price, description := st.description,
     category := none, spicy_level := st.spicy_level, confidence := 0 }]

/-- A registered schema class: an identity tag plus the class-level
extraction-type identifier it declares. -/
structure ModelClass where
  cid : Nat
  extraction_type : PyStr
deriving DecidableEq

/-- The built-in Person schema class. -/
def personClass : ModelClass := ⟨0, ptPerson⟩

/-- The built-in Sentiment schema class. -/
def sentimentClass : ModelClass := ⟨1, ptSentiment⟩

/-- The MenuInfo plugin schema class. -/
def menuClass : ModelClass := ⟨5, ptMenu⟩

/-- SimpleRegexExtractor.extract: only the MenuInfo class is handled, every
other class yields the empty list. -/
def simple_regex_extract (text : PyStr) (model_class : ModelClass) : List MenuInfo :=
  if model_class = menuClass then extract_menu_info text else []

/-- SimpleRegexExtractor.supports_model: the class equality test against
MenuInfo. -/
def simple_regex_supports_model (model_class : ModelClass) : Bool :=
  model_class == menuClass

/-- Python dict lookup d.get(k) over the association-list model. -/
def dictGet {α : Type} (m : List (PyStr × α)) (k : PyStr) : Option α :=
  match m with
  | [] => none
  | (k', v) :: rest => if k' = k then some v else dictGet rest k

/-- Python dict assignment d[k] = v over the association-list model:
replace in place when the key is present, append otherwise. -/
def dictInsert {α : Type} (m : List (PyStr × α)) (k : PyStr) (v : α) : List (PyStr × α) :=
  match m with
  | [] => [(k, v)]
  | (k', v') :: rest => if k' = k then (k, v) :: rest else (k', v') :: dictInsert rest k v

/-- ExtractorRegistry.register_model on the identifier-to-schema mapping:
store the class under its declared extraction-type identifier. -/
def register_model (models : List (PyStr × ModelClass)) (model_class : ModelClass) :
    List (PyStr × ModelClass) :=
  dictInsert models model_class.extraction_type model_class

/-- A registered strategy: its supports_model predicate and its extract
operation. -/
structure Extr where
  supports_model : ModelClass → Bool
  extract : PyStr → ModelClass → List Extracted

/-- ExtractorRegistry state: the identifier-to-schema mapping and the
ordered strategy list. -/
structure Registry where
  models : List (PyStr × ModelClass)
  extractors : List Extr

/-- ExtractorRegistry.get_model_class: dict lookup, None when absent. -/
def get_model_class (r : Registry) (extraction_type : PyStr) : Option ModelClass :=
  dictGet r.models extraction_type

/-- ExtractorRegistry.find_extractor: the first registered strategy whose
supports_model accepts the class, None when there is none. -/
def find_extractor (r : Registry) (model_class : ModelClass) : Option Extr :=
  r.extractors.find? (fun e => e.supports_model model_class)

/-- The two ValueError conditions ExtractorRegistry.extract can raise. -/
inductive ExtractError where
  | unsupportedType (t : PyStr)
  | noExtractor (t : PyStr)
deriving DecidableEq

/-- ExtractorRegistry.extract: resolve the identifier to a schema class
(unsupported-type error when absent), resolve the class to a strategy
(no-extractor error when none supports it), then delegate and return the
strategy's result unchanged. -/
def Registry.extract (r : Registry) (text : PyStr) (extraction_type : PyStr) :
    Except ExtractError (List Extracted) :=
  match get_model_class r extraction_type with
  | none => .error (.unsupportedType extraction_type)
  | some model_class =>
    match find_extractor r model_class with
    | none => .error (.noExtractor extraction_type)
    | some extractor => .ok (extractor.extract text model_class)

/-- os.getenv(key, default) over an association-list environment: the
variable's value when set (even when set to the empty string), the default
otherwise. -/
def os_getenv (env : List (PyStr × PyStr)) (key default : PyStr) : PyStr :=
  (dictGet env key).getD default

/-- The llm_api_key binding of LangChainExtractor._init_llm:
os.getenv of LLM_API_KEY with default fake_key. -/
def llm_api_key (env : List (PyStr × PyStr)) : PyStr :=
  os_getenv env ("LLM_API_KEY".toList) ("fake_key".toList)

/-- Whether _init_llm constructs the LLM client: the truthiness test on
llm_api_key. -/
def llm_is_configured (env : List (PyStr × PyStr)) : Bool :=
  !(llm_api_key env).isEmpty

/-- Whether LangChainExtractor.extract takes the heuristic fallback branch:
it does exactly when self.llm is None, i.e. when _init_llm saw a falsy
key. -/
def uses_heuristic_fallback (env : List (PyStr × PyStr)) : Bool :=
  !llm_is_configured env

/-- A small registry used to instantiate the registry theorems: the Person
schema registered, no strategies. -/
def exampleRegistry : Registry := ⟨[(ptPerson, personClass)], []⟩

/-- The sample review text of the spec's sentiment test property. -/
def sampleSentimentText : PyStr := "great product, very good".toList

theorem isPySpace_of_lineBreak {c : Char} (h : isLineBreakChar c = true) :
    isPySpace c = true := by
  simp only [isLineBreakChar, Bool.or_eq_true, beq_iff_eq] at h
  simp only [isPySpace, Bool.or_eq_true, beq_iff_eq]
  tauto

theorem strip_nil_iff (l : PyStr) :
    pyStrip l = [] ↔ ∀ c ∈ l, isPySpace c = true := by
  unfold pyStrip
  rw [List.reverse_eq_nil_iff, List.dropWhile_eq_nil_iff]
  constructor
  · intro h c hc
    by_cases hsp : isPySpace c = true
    · exact hsp
    · exfalso
      have hl := List.takeWhile_append_dropWhile (p := isPySpace) (l := l)
      rw [← hl] at hc
      rcases List.mem_append.mp hc with h1 | h2
      · exact hsp (List.mem_takeWhile_imp h1)
      · exact hsp (h c (List.mem_reverse.mpr h2))
  · intro h c hc
    exact h c ((List.dropWhile_sublist _).mem (List.mem_reverse.mp hc))

theorem exists_nonspace_of_strip_ne_nil {l : PyStr} (h : pyStrip l ≠ []) :
    ∃ c ∈ l, isPySpace c = false := by
  by_contra hno
  push_neg at hno
  exact h ((strip_nil_iff l).mpr (fun c hc => by simpa using hno c hc))

theorem splitlinesAux_has_line (q : Char → Bool)
    (hq : ∀ c, q c = true → isLineBreakChar c = false) (t acc : List Char)
    (h : (∃ c ∈ t, q c = true) ∨ (∃ c ∈ acc, q c = true)) :
    ∃ L ∈ splitlinesAux t acc, ∃ c ∈ L, q c = true := by
  have qfalse : ∀ e, isLineBreakChar e = true → q e = false := by
    intro e he
    cases hqe : q e
    · rfl
    · rw [hq e hqe] at he
      exact absurd he (by simp)
  induction t, acc using splitlinesAux.induct with
  | case1 acc hemp =>
    rw [List.isEmpty_iff] at hemp
    subst hemp
    rcases h with ⟨c, hc, _⟩ | ⟨c, hc, _⟩ <;> exact absurd hc (List.not_mem_nil c)
  | case2 acc hne =>
    rcases h with ⟨c, hc, _⟩ | ⟨c, hc, hqc⟩
    · exact absurd hc (List.not_mem_nil c)
    · exact ⟨acc.reverse, by simp [splitlinesAux, hne], c, List.mem_reverse.mpr hc, hqc⟩
  | case3 c acc hbr d rest2 hpair ih =>
    have heq : splitlinesAux (c :: d :: rest2) acc = acc.reverse :: splitlinesAux rest2 [] := by
      simp [splitlinesAux, hbr, hpair]
    obtain ⟨hc, hd⟩ : c = '\r' ∧ d = '\n' := by simpa using hpair
    rcases h with ⟨e, he, hqe⟩ | ⟨e, he, hqe⟩
    · rcases he with _ | ⟨_, he⟩
      · rw [qfalse c hbr] at hqe
        exact absurd hqe (by simp)
      · rcases he with _ | ⟨_, he⟩
        · rw [qfalse d (by rw [hd]; decide)] at hqe
          exact absurd hqe (by simp)
        · obtain ⟨L, hL, hw⟩ := ih (Or.inl ⟨e, he, hqe⟩)
          exact ⟨L, by rw [heq]; exact List.mem_cons_of_mem _ hL, hw⟩
    · exact ⟨acc.reverse, by rw [heq]; exact List.mem_cons_self _ _, e,
        List.mem_reverse.mpr he, hqe⟩
  | case4 c acc hbr d rest2 hpair ih =>
    have heq : splitlinesAux (c :: d :: rest2) acc =
        acc.reverse :: splitlinesAux (d :: rest2) [] := by
      simp [splitlinesAux, hbr, hpair]
    rcases h with ⟨e, he, hqe⟩ | ⟨e, he, hqe⟩
    · rcases he with _ | ⟨_, he⟩
      · rw [qfalse c hbr] at hqe
        exact absurd hqe (by simp)
      · obtain ⟨L, hL, hw⟩ := ih (Or.inl ⟨e, he, hqe⟩)
        exact ⟨L, by rw [heq]; exact List.mem_cons_of_mem _ hL, hw⟩
    · exact ⟨acc.reverse, by rw [heq]; exact List.mem_cons_self _ _, e,
        List.mem_reverse.mpr he, hqe⟩
  | case5 c acc hbr =>
    have heq : splitlinesAux [c] acc = [acc.reverse] := by simp [splitlinesAux, hbr]
    rcases h with ⟨e, he, hqe⟩ | ⟨e, he, hqe⟩
    · rcases he with _ | ⟨_, he⟩
      · rw [qfalse c hbr] at hqe
        exact absurd hqe (by simp)
      · exact absurd he (List.not_mem_nil e)
    · exact ⟨acc.reverse, by rw [heq]; exact List.mem_cons_self _ _, e,
        List.mem_reverse.mpr he, hqe⟩
  | case6 c rest acc hbr ih =>
    have heq : splitlinesAux (c :: rest) acc = splitlinesAux rest (c :: acc) := by
      cases rest <;> simp [splitlinesAux, hbr]
    rw [heq]
    rcases h with ⟨e, he, hqe⟩ | ⟨e, he, hqe⟩
    · rcases he with _ | ⟨_, he⟩
      · exact ih (Or.inr ⟨c, List.mem_cons_self _ _, hqe⟩)
      · exact ih (Or.inl ⟨e, he, hqe⟩)
    · exact ih (Or.inr ⟨e, List.mem_cons_of_mem _ he, hqe⟩)

theorem pyLines_ne_nil {text : PyStr} (h : pyStrip text ≠ []) : pyLines text ≠ [] := by
  obtain ⟨c, hc, hsp⟩ := exists_nonspace_of_strip_ne_nil h
  have hq : ∀ e, (!isPySpace e) = true → isLineBreakChar e = false := by
    intro e he
    cases hbe : isLineBreakChar e
    · rfl
    · rw [isPySpace_of_lineBreak hbe] at he
      exact absurd he (by simp)
  obtain ⟨L, hL, d, hd, hqd⟩ :=
    splitlinesAux_has_line (fun e => !isPySpace e) hq text [] (Or.inl ⟨c, hc, by simp [hsp]⟩)
  have hLne : pyStrip L ≠ [] := by
    intro hnil
    have := (strip_nil_iff L).mp hnil d hd
    rw [this] at hqd
    exact absurd hqd (by simp)
  have hmem : pyStrip L ∈ pyLines text := by
    apply List.mem_filter.mpr
    refine ⟨List.mem_map_of_mem _ hL, ?_⟩
    cases hsl : pyStrip L
    · exact absurd hsl hLne
    · simp
  exact List.ne_nil_of_mem hmem

theorem splitNl_all_space {t : List Char} (h : ∀ c ∈ t, isPySpace c = true) :
    ∀ L ∈ pySplitNl t, ∀ c ∈ L, isPySpace c = true := by
  induction t using pySplitNl.induct with
  | case1 =>
    intro L hL c hc
    simp [pySplitNl] at hL
    subst hL
    exact absurd hc (List.not_mem_nil c)
  | case2 rest ih =>
    intro L hL c hc
    simp only [pySplitNl, List.mem_cons] at hL
    rcases hL with rfl | hL
    · exact absurd hc (List.not_mem_nil c)
    · exact ih (fun e he => h e (List.mem_cons_of_mem _ he)) L hL c hc
  | case3 c rest hne hrest ih =>
    intro L hL d hd
    simp only [pySplitNl] at hL
    rw [hrest] at hL
    simp at hL
    subst hL
    rcases hd with _ | ⟨_, hd⟩
    · exact h c (List.mem_cons_self _ _)
    · exact absurd hd (List.not_mem_nil _)
  | case4 c rest hne l ls hrest ih =>
    intro L hL d hd
    have htail : ∀ e ∈ rest, isPySpace e = true :=
      fun e he => h e (List.mem_cons_of_mem _ he)
    simp only [pySplitNl] at hL
    rw [hrest] at hL
    rcases List.mem_cons.mp hL with rfl | hL
    · rcases hd with _ | ⟨_, hd⟩
      · exact h c (List.mem_cons_self _ _)
      · exact ih htail l (by rw [hrest]; exact List.mem_cons_self _ _) d hd
    · exact ih htail L (by rw [hrest]; exact List.mem_cons_of_mem _ hL) d hd

theorem pyLinesNl_nil_of_strip_nil {text : PyStr} (h : pyStrip text = []) :
    pyLinesNl text = [] := by
  have hall := (strip_nil_iff text).mp h
  apply List.filter_eq_nil_iff.mpr
  intro x hx
  obtain ⟨L, hL, rfl⟩ := List.mem_map.mp hx
  have : pyStrip L = [] :=
    (strip_nil_iff L).mpr (fun c hc => splitNl_all_space hall L hL c hc)
  simp [this]

theorem base_nonneg (fs : List FieldVal) : 0 ≤ baseCalculateConfidence fs := by
  simp only [baseCalculateConfidence]
  split
  · exact div_nonneg (Nat.cast_nonneg _) (Nat.cast_nonneg _)
  · exact le_refl 0

theorem base_le_one (fs : List FieldVal) : baseCalculateConfidence fs ≤ 1 := by
  simp only [baseCalculateConfidence]
  split
  · rename_i h
    rw [div_le_one (by exact_mod_cast h)]
    exact_mod_cast List.length_filter_le _ _
  · norm_num

theorem base_eq_zero (fs : List FieldVal) (h : ∀ v ∈ fs, v.isFilled = false) :
    baseCalculateConfidence fs = 0 := by
  have hf : fs.filter FieldVal.isFilled = [] :=
    List.filter_eq_nil_iff.mpr (fun a ha => by simp [h a ha])
  simp only [baseCalculateConfidence, hf]
  simp

theorem isBlankOrNull_eq (v : FieldVal) : v.isBlankOrNull = !v.isFilled := by
  cases v <;> simp [FieldVal.isBlankOrNull, FieldVal.isFilled]

theorem base_eq_zero_of_all_blank (fs : List FieldVal)
    (h : fs.all FieldVal.isBlankOrNull = true) : baseCalculateConfidence fs = 0 :=
  base_eq_zero fs (fun v hv => by
    have := List.all_eq_true.mp h v hv
    rw [isBlankOrNull_eq] at this
    simpa using this)

/-- C1, amended. For every schema type, calculate_confidence lies in [0, 1]
(for Sentiment under its pydantic-validated bound confidence_score ∈ [0, 1]);
and when every non-confidence field is null or blank, calculate_confidence
returns 0.0 for Person, CompanyInfo, ProductInfo, ContactInfo and
(vacuously, since its float field is never null or blank) Sentiment, while
MenuInfo returns 0.0 in that case only when dish_name and price are not both
Python-truthy: its bonus clause tests truthiness, not blankness, so
whitespace-only dish_name and price still trigger the 0.2 bonus. -/
theorem C1_confidence_range :
    (∀ p : Person, 0 ≤ p.calculate_confidence ∧ p.calculate_confidence ≤ 1 ∧
      (p.fieldsList.all FieldVal.isBlankOrNull = true → p.calculate_confidence = 0)) ∧
    (∀ c : CompanyInfo, 0 ≤ c.calculate_confidence ∧ c.calculate_confidence ≤ 1 ∧
      (c.fieldsList.all FieldVal.isBlankOrNull = true → c.calculate_confidence = 0)) ∧
    (∀ p : ProductInfo, 0 ≤ p.calculate_confidence ∧ p.calculate_confidence ≤ 1 ∧
      (p.fieldsList.all FieldVal.isBlankOrNull = true → p.calculate_confidence = 0)) ∧
    (∀ c : ContactInfo, 0 ≤ c.calculate_confidence ∧ c.calculate_confidence ≤ 1 ∧
      (c.fieldsList.all FieldVal.isBlankOrNull = true → c.calculate_confidence = 0)) ∧
    (∀ s : Sentiment, 0 ≤ s.confidence_score → s.confidence_score ≤ 1 →
      0 ≤ s.calculate_confidence ∧ s.calculate_confidence ≤ 1 ∧
        (s.fieldsList.all FieldVal.isBlankOrNull = true → s.calculate_confidence = 0)) ∧
    (∀ m : MenuInfo, 0 ≤ m.calculate_confidence ∧ m.calculate_confidence ≤ 1 ∧
      (m.fieldsList.all FieldVal.isBlankOrNull = true →
        ¬(pyTruthy m.dish_name = true ∧ pyTruthy m.price = true) →
        m.calculate_confidence = 0)) := by
  refine ⟨?_, ?_, ?_, ?_, ?_, ?_⟩
  · exact fun p => ⟨base_nonneg _, base_le_one _, fun h => base_eq_zero_of_all_blank _ h⟩
  · exact fun c => ⟨base_nonneg _, base_le_one _, fun h => base_eq_zero_of_all_blank _ h⟩
  · exact fun p => ⟨base_nonneg _, base_le_one _, fun h => base_eq_zero_of_all_blank _ h⟩
  · exact fun c => ⟨base_nonneg _, base_le_one _, fun h => base_eq_zero_of_all_blank _ h⟩
  · intro s h0 h1
    have hb0 := base_nonneg s.fieldsList
    have hb1 := base_le_one s.fieldsList
    refine ⟨?_, ?_, ?_⟩
    · unfold Sentiment.calculate_confidence
      exact div_nonneg (by linarith) (by norm_num)
    · unfold Sentiment.calculate_confidence
      rw [div_le_one (by norm_num)]
      linarith
    · intro hall
      exfalso
      have := List.all_eq_true.mp hall (.float s.confidence_score)
        (by simp [Sentiment.fieldsList])
      simp [FieldVal.isBlankOrNull] at this
  · intro m
    have hb0 := base_nonneg m.fieldsList
    have hb1 := base_le_one m.fieldsList
    simp only [MenuInfo.calculate_confidence]
    refine ⟨?_, ?_, ?_⟩
    · split
      · exact le_min (by norm_num) (by linarith)
      · exact hb0
    · split
      · exact min_le_left _ _
      · exact hb1
    · intro hall hnot
      rw [if_neg (by
        intro hcond
        exact hnot (by simpa using hcond))]
      exact base_eq_zero_of_all_blank _ hall

/-- C1, counterexample. A MenuInfo whose dish_name and price are non-empty
whitespace-only strings has every non-confidence field null or blank, yet
calculate_confidence returns 0.2, not 0.0. -/
theorem C1_counterexample :
    (MenuInfo.mk (some "  ".toList) (some " ".toList) none none none 0).fieldsList.all
      FieldVal.isBlankOrNull = true ∧
    (MenuInfo.mk (some "  ".toList) (some " ".toList) none none none
      0).calculate_confidence = 1/5 ∧
    ((1 : Rat)/5) ≠ 0 := by
  refine ⟨by decide, ?_, by norm_num⟩
  have hb : baseCalculateConfidence
      (MenuInfo.mk (some "  ".toList) (some " ".toList) none none none 0).fieldsList = 0 := by
    have hfil : ((MenuInfo.mk (some "  ".toList) (some " ".toList) none none none
        0).fieldsList.filter FieldVal.isFilled).length = 0 := by decide
    have htot : (MenuInfo.mk (some "  ".toList) (some " ".toList) none none none
        0).fieldsList.length = 5 := by decide
    simp only [baseCalculateConfidence, hfil, htot]
    norm_num
  have hcond : (pyTruthy (MenuInfo.mk (some "  ".toList) (some " ".toList) none none none
      0).dish_name && pyTruthy (MenuInfo.mk (some "  ".toList) (some " ".toList) none none none
      0).price) = true := by decide
  simp only [MenuInfo.calculate_confidence, hb, hcond, if_true]
  rw [min_eq_right (by norm_num : (0 : Rat) + 0.2 ≤ 1)]
  norm_num

/-- C1, witness: the amended theorem applied to concrete instances. -/
theorem C1_witness :
    0 ≤ (Sentiment.mk none 0 none 0).calculate_confidence ∧
    (Person.mk none none none 0).calculate_confidence = 0 ∧
    (MenuInfo.mk none none none none none 0).calculate_confidence = 0 := by
  refine ⟨(C1_confidence_range.2.2.2.2.1 _ (by norm_num) (by norm_num)).1,
    (C1_confidence_range.1 _).2.2 (by decide),
    (C1_confidence_range.2.2.2.2.2 _).2.2 (by decide) (by decide)⟩

/-- C2, counterexample. On empty input the SimpleRegexExtractor returns a
one-element list holding an all-None MenuInfo, not the empty list the claim
requires of every strategy. -/
theorem C2_counterexample :
    pyStrip ([] : PyStr) = [] ∧
    simple_regex_extract [] menuClass = [MenuInfo.mk none none none none none 0] ∧
    (simple_regex_extract [] menuClass).length ≠ 0 := by
  refine ⟨rfl, by decide, by decide⟩

/-- C2, amended. On blank or whitespace-only input, the LangChain extractor
returns the empty list without error; the SimpleRegexExtractor plugin
instead returns, without error, a single MenuInfo with every field None and
confidence 0.0. -/
theorem C2_blank_input :
    (∀ text etype : PyStr, pyStrip text = [] → langchain_extract text etype = []) ∧
    (∀ text : PyStr, pyStrip text = [] →
      extract_menu_info text = [MenuInfo.mk none none none none none 0]) := by
  constructor
  · intro text etype h
    simp [langchain_extract, h]
  · intro text h
    simp [extract_menu_info, pyLinesNl_nil_of_strip_nil h]

/-- C2, witness: the amended theorem applied to a whitespace-only input. -/
theorem C2_witness :
    langchain_extract (" \n\t".toList) ptPerson = [] ∧
    extract_menu_info (" \n\t".toList) = [MenuInfo.mk none none none none none 0] :=
  ⟨C2_blank_input.1 _ _ (by decide), C2_blank_input.2 _ (by decide)⟩

/-- C3, amended. Every instance returned by the LangChain extractor has had
update_confidence applied, so its confidence attribute equals its
calculate_confidence value; the SimpleRegexExtractor never calls
update_confidence and every instance it returns keeps the 0.0 default. -/
theorem C3_update_confidence :
    (∀ text etype : PyStr, ∀ it ∈ langchain_extract text etype,
      it.confidenceVal = it.calcVal) ∧
    (∀ text : PyStr, ∀ it ∈ extract_menu_info text, it.confidence = 0) := by
  constructor
  · intro text etype it hit
    unfold langchain_extract at hit
    split at hit
    · exact absurd hit (List.not_mem_nil it)
    · obtain ⟨x, _, rfl⟩ := List.mem_map.mp hit
      cases x <;> rfl
  · intro text it hit
    simp only [extract_menu_info, List.mem_singleton] at hit
    subst hit
    rfl

/-- C3, counterexample. The SimpleRegexExtractor result for a plain dish
name keeps the default confidence 0.0 although calculate_confidence would
return 0.2: update_confidence is never invoked. -/
theorem C3_counterexample :
    extract_menu_info ("Kung Pao Chicken".toList) =
      [MenuInfo.mk (some ("Kung Pao Chicken".toList)) none none none none 0] ∧
    (MenuInfo.mk (some ("Kung Pao Chicken".toList)) none none none none 0).confidence = 0 ∧
    (MenuInfo.mk (some ("Kung Pao Chicken".toList)) none none none none
      0).calculate_confidence = 1/5 ∧
    (0 : Rat) ≠ 1/5 := by
  refine ⟨by decide, rfl, ?_, by norm_num⟩
  have hfil : ((MenuInfo.mk (some ("Kung Pao Chicken".toList)) none none none none
      0).fieldsList.filter FieldVal.isFilled).length = 1 := by decide
  have htot : (MenuInfo.mk (some ("Kung Pao Chicken".toList)) none none none none
      0).fieldsList.length = 5 := by decide
  simp only [MenuInfo.calculate_confidence]
  rw [if_neg (by decide)]
  simp only [baseCalculateConfidence, hfil, htot]
  norm_num

/-- C3, witness: the amended theorem applied to concrete extractions. -/
theorem C3_witness :
    Extracted.confidenceVal
        (Extracted.update_confidence (Extracted.person (Person.mk (some ['x']) none none 0))) =
      Extracted.calcVal
        (Extracted.update_confidence (Extracted.person (Person.mk (some ['x']) none none 0))) ∧
    (MenuInfo.mk (some ("Kung Pao Chicken".toList)) none none none none 0).confidence = 0 := by
  constructor
  · refine C3_update_confidence.1 ("x".toList) ptPerson _ ?_
    rw [show langchain_extract ("x".toList) ptPerson =
      [Extracted.update_confidence (Extracted.person (Person.mk (some ['x']) none none 0))]
      from rfl]
    exact List.mem_singleton.mpr rfl
  · refine C3_update_confidence.2 ("Kung Pao Chicken".toList) _ ?_
    rw [show extract_menu_info ("Kung Pao Chicken".toList) =
      [MenuInfo.mk (some ("Kung Pao Chicken".toList)) none none none none 0] from by decide]
    exact List.mem_singleton.mpr rfl

/-- C4, confirmed. Registry.extract fails with the unsupported-type
condition whenever the identifier has no registered schema, and with the
no-extractor condition whenever a schema is registered but no registered
strategy supports it; in both cases no result list is returned. -/
theorem C4_registry_errors :
    ∀ (r : Registry) (text etype : PyStr),
      (get_model_class r etype = none →
        r.extract text etype = .error (.unsupportedType etype)) ∧
      (∀ mc : ModelClass, get_model_class r etype = some mc →
        (∀ e ∈ r.extractors, e.supports_model mc = false) →
        r.extract text etype = .error (.noExtractor etype)) := by
  intro r text etype
  constructor
  · intro h
    unfold Registry.extract
    rw [h]
  · intro mc h hall
    unfold Registry.extract
    rw [h]
    have hfind : find_extractor r mc = none :=
      List.find?_eq_none.mpr (fun e he => by simp [hall e he])
    dsimp only
    rw [hfind]

/-- C4, witness: the theorem applied to a registry with one schema and no
strategies. -/
theorem C4_witness :
    exampleRegistry.extract [] ("unknown_type".toList) =
      .error (.unsupportedType ("unknown_type".toList)) ∧
    exampleRegistry.extract [] ptPerson = .error (.noExtractor ptPerson) := by
  constructor
  · exact (C4_registry_errors exampleRegistry [] _).1 (by decide)
  · exact (C4_registry_errors exampleRegistry [] _).2 personClass (by decide)
      (fun e he => absurd he (List.not_mem_nil e))

/-- C5, counterexample. In an environment where LLM_API_KEY is absent, the
lookup falls back to the default fake_key, which is truthy, so the LLM
client is constructed and the heuristic fallback is not selected —
contradicting the claim that an absent key selects the fallback. -/
theorem C5_counterexample :
    dictGet ([] : List (PyStr × PyStr)) ("LLM_API_KEY".toList) = none ∧
    llm_api_key [] = "fake_key".toList ∧
    uses_heuristic_fallback [] = false :=
  ⟨rfl, rfl, rfl⟩

/-- C5, amended. The heuristic fallback path is selected exactly when
LLM_API_KEY is set to the empty string; when the variable is absent the
default value fake_key is truthy and the LLM path is used. -/
theorem C5_heuristic_sentinel :
    ∀ env : List (PyStr × PyStr),
      uses_heuristic_fallback env = true ↔
        dictGet env ("LLM_API_KEY".toList) = some [] := by
  intro env
  unfold uses_heuristic_fallback llm_is_configured llm_api_key os_getenv
  cases h : dictGet env ("LLM_API_KEY".toList) with
  | none => simp [h]
  | some v => simp [h, List.isEmpty_iff]

theorem contactStep_name_of_truthy (st : ContactInfo) (line : PyStr)
    (h : pyTruthy st.name = true) : (contactStep st line).name = st.name := by
  by_cases h1 : atHit line
  · simp [contactStep, h1]
  · by_cases h2 : telKeywordHit line
    · cases hfp : findPhone line <;> simp [contactStep, h1, h2, hfp]
    · simp [contactStep, h1, h2, h]

theorem productStep_pname_of_truthy (st : ProductInfo) (line : PyStr)
    (h : pyTruthy st.product_name = true) :
    (productStep st line).product_name = st.product_name := by
  by_cases h1 : priceSymbolHit line
  · simp [productStep, h1]
  · simp [productStep, h1, h]

/-- C6, amended. In the company, contact and product heuristics, the fields
assigned without a not-already-set guard (company_name, phone and email of
company_info; email and phone of contact_info; price of product_info) are
re-assigned on every matching line, so the last matching line wins for each
of them; only the guarded fields (contact_info name and product_info
product_name) keep the value of the first matching line. -/
theorem C6_field_overwrite :
    (∀ (st : CompanyInfo) (line : PyStr), companySuffixHit line = true →
      (companyStep st line).company_name = some line) ∧
    (∀ (st : CompanyInfo) (line : PyStr) (m : List Char), companySuffixHit line = false →
      telKeywordHit line = true → findPhone line = some m →
      (companyStep st line).phone = some (pyStrip m)) ∧
    (∀ (st : CompanyInfo) (line : PyStr), companySuffixHit line = false →
      telKeywordHit line = false → atHit line = true →
      (companyStep st line).email = some line) ∧
    (∀ (st : ContactInfo) (line : PyStr), atHit line = true →
      (contactStep st line).email = some line) ∧
    (∀ (st : ContactInfo) (line : PyStr) (m : List Char), atHit line = false →
      telKeywordHit line = true → findPhone line = some m →
      (contactStep st line).phone = some (pyStrip m)) ∧
    (∀ (st : ProductInfo) (line : PyStr), priceSymbolHit line = true →
      (productStep st line).price = some line) ∧
    (∀ (st : ContactInfo) (lines : List PyStr), pyTruthy st.name = true →
      (lines.foldl contactStep st).name = st.name) ∧
    (∀ (st : ProductInfo) (lines : List PyStr), pyTruthy st.product_name = true →
      (lines.foldl productStep st).product_name = st.product_name) := by
  refine ⟨?_, ?_, ?_, ?_, ?_, ?_, ?_, ?_⟩
  · intro st line h
    simp [companyStep, h]
  · intro st line m h1 h2 h3
    simp [companyStep, h1, h2, h3]
  · intro st line h1 h2 h3
    simp [companyStep, h1, h2, h3]
  · intro st line h
    simp [contactStep, h]
  · intro st line m h1 h2 h3
    simp [contactStep, h1, h2, h3]
  · intro st line h
    simp [productStep, h]
  · intro st lines h
    induction lines generalizing st with
    | nil => rfl
    | cons l ls ih =>
      have hstep := contactStep_name_of_truthy st l h
      have h2 : pyTruthy (contactStep st l).name = true := by rw [hstep]; exact h
      simp only [List.foldl_cons]
      rw [ih _ h2, hstep]
  · intro st lines h
    induction lines generalizing st with
    | nil => rfl
    | cons l ls ih =>
      have hstep := productStep_pname_of_truthy st l h
      have h2 : pyTruthy (productStep st l).product_name = true := by rw [hstep]; exact h
      simp only [List.foldl_cons]
      rw [ih _ h2, hstep]

/-- C6, counterexample. In the company heuristic the phone field is also
last-match-wins: with two telephone lines the second overwrites the value
the first had set, contradicting the claim that only company_name lacks the
first-match guard. -/
theorem C6_counterexample :
    telKeywordHit ("tel 111".toList) = true ∧
    (companyStep {} ("tel 111".toList)).phone = some ("111".toList) ∧
    (heuristic_company_extraction ["tel 111".toList, "tel 222".toList]).map
      CompanyInfo.phone = [some ("222".toList)] ∧
    ("222".toList : PyStr) ≠ "111".toList := by
  refine ⟨by decide, by decide, by decide, by decide⟩

/-- C6, witness: the amended theorem applied at concrete lines. -/
theorem C6_witness :
    (companyStep {} ("acme inc".toList)).company_name = some ("acme inc".toList) ∧
    ((["x".toList]).foldl contactStep
      (ContactInfo.mk (some ("Bob".toList)) none none none none 0)).name =
      some ("Bob".toList) := by
  constructor
  · exact C6_field_overwrite.1 {} _ (by decide)
  · exact C6_field_overwrite.2.2.2.2.2.2.1
      (ContactInfo.mk (some ("Bob".toList)) none none none none 0) _ (by decide)

theorem dictGet_dictInsert_self {α : Type} (m : List (PyStr × α)) (k : PyStr) (v : α) :
    dictGet (dictInsert m k v) k = some v := by
  induction m with
  | nil => simp [dictInsert, dictGet]
  | cons hd tl ih =>
    obtain ⟨k', v'⟩ := hd
    by_cases h : k' = k
    · simp [dictInsert, dictGet, h]
    · simp [dictInsert, dictGet, h, ih]

theorem dictInsert_dictInsert_same {α : Type} (m : List (PyStr × α)) (k : PyStr) (v : α) :
    dictInsert (dictInsert m k v) k v = dictInsert m k v := by
  induction m with
  | nil => simp [dictInsert]
  | cons hd tl ih =>
    obtain ⟨k', v'⟩ := hd
    by_cases h : k' = k
    · simp [dictInsert, h]
    · simp [dictInsert, h, ih]

/-- C8, confirmed. Registering two schema classes that declare the same
extraction-type identifier leaves the registry mapping that identifier to
the second (last write wins), and registering the same class twice is
idempotent. -/
theorem C8_last_write_wins :
    ∀ (models : List (PyStr × ModelClass)) (A B : ModelClass),
      A.extraction_type = B.extraction_type →
      dictGet (register_model (register_model models A) B) A.extraction_type = some B ∧
      register_model (register_model models A) A = register_model models A := by
  intro m A B h
  constructor
  · unfold register_model
    rw [h]
    exact dictGet_dictInsert_self _ _ _
  · unfold register_model
    exact dictInsert_dictInsert_same _ _ _

/-- C8, witness: the theorem applied to two classes sharing an
identifier. -/
theorem C8_witness :
    dictGet (register_model (register_model [] (ModelClass.mk 1 ("dup".toList)))
        (ModelClass.mk 2 ("dup".toList)))
      ((ModelClass.mk 1 ("dup".toList)).extraction_type) =
      some (ModelClass.mk 2 ("dup".toList)) ∧
    register_model (register_model [] (ModelClass.mk 1 ("dup".toList)))
        (ModelClass.mk 1 ("dup".toList)) =
      register_model [] (ModelClass.mk 1 ("dup".toList)) :=
  C8_last_write_wins [] _ _ rfl

theorem sentiment_heuristic_eval :
    heuristic_sentiment_extraction sampleSentimentText =
      [Sentiment.mk (some ("positive".toList)) (2/5)
        (some ["good".toList, "great".toList]) 0] := by
  have hpc : (positive_words.filter
      (fun word => containsSub word (pyLower sampleSentimentText))).length = 2 := by decide
  have hnc : (negative_words.filter
      (fun word => containsSub word (pyLower sampleSentimentText))).length = 0 := by decide
  have hkw : (((positive_words ++ negative_words).filter
      (fun word => containsSub word (pyLower sampleSentimentText))).take 5) =
      ["good".toList, "great".toList] := by decide
  simp only [heuristic_sentiment_extraction, hpc, hnc, hkw]
  norm_num [min_def]

theorem sentiment_extract_eval :
    langchain_extract sampleSentimentText ptSentiment =
      [Extracted.sentimentRes (Sentiment.mk (some ("positive".toList)) (2/5)
        (some ["good".toList, "great".toList]) (7/10))] := by
  have hbase : baseCalculateConfidence (Sentiment.mk (some ("positive".toList)) (2/5)
      (some ["good".toList, "great".toList]) 0).fieldsList = 1 := by
    have hfil : ((Sentiment.mk (some ("positive".toList)) (2/5)
        (some ["good".toList, "great".toList]) 0).fieldsList.filter
        FieldVal.isFilled).length = 3 := by decide
    have htot : (Sentiment.mk (some ("positive".toList)) (2/5)
        (some ["good".toList, "great".toList]) 0).fieldsList.length = 3 := by decide
    simp only [baseCalculateConfidence, hfil, htot]
    norm_num
  have hcalc : (Sentiment.mk (some ("positive".toList)) (2/5)
      (some ["good".toList, "great".toList]) 0).calculate_confidence = 7/10 := by
    simp only [Sentiment.calculate_confidence, hbase]
    norm_num
  simp only [langchain_extract]
  rw [if_neg (by decide : ¬(pyStrip sampleSentimentText = []))]
  simp only [heuristic_extraction]
  rw [if_neg (by decide : ¬(ptSentiment = ptPerson)), if_true]
  rw [sentiment_heuristic_eval]
  simp only [List.map_cons, List.map_nil, Extracted.update_confidence,
    Sentiment.update_confidence, hcalc]

/-- C7, counterexample. On the sample text the heuristic's 0.4 is stored in
the confidence_score field: the confidence attribute of the yielded
instance is 0.0 at the heuristic's return and 0.7 (the average of the
field-completeness 1.0 and 0.4) after update_confidence inside extract, so
the claimed confidence of 0.4 matches neither. -/
theorem C7_counterexample :
    (heuristic_sentiment_extraction sampleSentimentText).map Sentiment.confidence = [0] ∧
    (langchain_extract sampleSentimentText ptSentiment).map Extracted.confidenceVal =
      [7/10] ∧
    (0 : Rat) ≠ 2/5 ∧ (7 : Rat)/10 ≠ 2/5 := by
  refine ⟨?_, ?_, by norm_num, by norm_num⟩
  · rw [sentiment_heuristic_eval]
    rfl
  · rw [sentiment_extract_eval]
    rfl

/-- C7, amended. Heuristic sentiment extraction on the sample text yields
exactly one Sentiment with sentiment positive, self-reported
confidence_score min(0.8, 2*0.2) = 0.4 and keywords good, great in
positive-scan-list order; its confidence attribute is 0.0 at the
heuristic's return and 0.7 after update_confidence inside extract. -/
theorem C7_sentiment_example :
    heuristic_sentiment_extraction sampleSentimentText =
      [Sentiment.mk (some ("positive".toList)) (2/5)
        (some ["good".toList, "great".toList]) 0] ∧
    langchain_extract sampleSentimentText ptSentiment =
      [Extracted.sentimentRes (Sentiment.mk (some ("positive".toList)) (2/5)
        (some ["good".toList, "great".toList]) (7/10))] :=
  ⟨sentiment_heuristic_eval, sentiment_extract_eval⟩

/-- C9, confirmed. For non-blank text, the heuristic fallback constructs
exactly one result instance for each of the five built-in extraction
types. -/
theorem C9_heuristic_singleton :
    ∀ text : PyStr, pyStrip text ≠ [] →
      ∀ etype ∈ [ptPerson, ptSentiment, ptCompany, ptProduct, ptContact],
        (heuristic_extraction text etype).length = 1 := by
  intro text h etype het
  have hlines : pyLines text ≠ [] := pyLines_ne_nil h
  simp only [List.mem_cons, List.not_mem_nil, or_false] at het
  rcases het with rfl | rfl | rfl | rfl | rfl
  · simp only [heuristic_extraction]
    rw [if_true]
    rcases hl : pyLines text with _ | ⟨a, as⟩
    · exact absurd hl hlines
    · simp [heuristic_person_extraction]
  · simp only [heuristic_extraction]
    rw [if_neg (by decide), if_true]
    simp [heuristic_sentiment_extraction]
  · simp only [heuristic_extraction]
    rw [if_neg (by decide), if_neg (by decide), if_true]
    simp [heuristic_company_extraction]
  · simp only [heuristic_extraction]
    rw [if_neg (by decide), if_neg (by decide), if_neg (by decide), if_true]
    simp [heuristic_product_extraction]
  · simp only [heuristic_extraction]
    rw [if_neg (by decide), if_neg (by decide), if_neg (by decide), if_neg (by decide),
      if_true]
    simp [heuristic_contact_extraction]

/-- C9, witness: the theorem applied to a one-character text and the person
type. -/
theorem C9_witness : (heuristic_extraction ("x".toList) ptPerson).length = 1 :=
  C9_heuristic_singleton ("x".toList) (by decide) ptPerson (List.mem_cons_self _ _)

/-- C10, confirmed. In the company heuristic a line is assigned to email
only when it contains an at-sign and matches neither the company-suffix
predicate nor the telephone predicate; a line containing an at-sign
together with a suffix substring is assigned to company_name and leaves
email untouched. -/
theorem C10_company_email_rule :
    ∀ (st : CompanyInfo) (line : PyStr),
      ((companyStep st line).email ≠ st.email →
        atHit line = true ∧ companySuffixHit line = false ∧ telKeywordHit line = false) ∧
      (atHit line = true → companySuffixHit line = true →
        (companyStep st line).company_name = some line ∧
        (companyStep st line).email = st.email) := by
  intro st line
  constructor
  · intro hne
    by_cases h1 : companySuffixHit line
    · exact absurd (by simp [companyStep, h1]) hne
    · by_cases h2 : telKeywordHit line
      · exfalso
        apply hne
        cases hfp : findPhone line <;> simp [companyStep, h1, h2, hfp]
      · by_cases h3 : atHit line
        · exact ⟨h3, by simpa using h1, by simpa using h2⟩
        · exact absurd (by simp [companyStep, h1, h2, h3]) hne
  · intro _ hsuf
    constructor <;> simp [companyStep, hsuf]

/-- C10, witness: the theorem applied to an email-shaped line whose domain
contains the substring co. -/
theorem C10_witness :
    (companyStep {} ("foo@example.com".toList)).company_name =
      some ("foo@example.com".toList) ∧
    (companyStep {} ("foo@example.com".toList)).email = none := by
  have h := (C10_company_email_rule {} ("foo@example.com".toList)).2 (by decide) (by decide)
  exact ⟨h.1, h.2⟩
